import Mathlib

/-!
Shallow embedding of the arxiv-satellite article pipeline
(`function.py`, `formatter.py`, `publisher.py`, `run.py`).

Python strings are modelled as `List Char`; Python exceptions reaching a
caller are modelled with `Except`; results of external network calls
(DeepL, Microsoft Translator, Gemini) are passed in as oracle parameters.
-/

set_option maxRecDepth 4096

/-- Python strings, modelled as lists of characters. -/
abbrev Str := List Char

/-- Coerce a Lean string literal to the `Str` model. -/
def str (s : String) : Str := s.data

/-- Index of the first occurrence of `sep` in `s` (`str.find` with a
nonempty separator), `none` when `sep` does not occur. -/
def findSub (sep : Str) : Str → Option Nat
  | [] => if sep.isEmpty then some 0 else none
  | c :: rest =>
    if sep.isPrefixOf (c :: rest) then some 0
    else (findSub sep rest).map (· + 1)

/-- Fuel-driven worker for `pySplit`; fuel `s.length + 1` always suffices
because each step consumes at least one character of `s`. -/
def pySplitGo (sep : Str) : Nat → Str → List Str
  | 0, s => [s]
  | fuel + 1, s =>
    match findSub sep s with
    | none => [s]
    | some i => s.take i :: pySplitGo sep fuel (s.drop (i + sep.length))

/-- Python `s.split(sep)` for a nonempty separator: split on every
non-overlapping occurrence, scanning left to right; always returns at
least one (possibly empty) piece. -/
def pySplit (sep s : Str) : List Str := pySplitGo sep (s.length + 1) s

/-- Fuel-driven worker for `pyReplace`. -/
def pyReplaceGo (old new : Str) : Nat → Str → Str
  | 0, s => s
  | fuel + 1, s =>
    match findSub old s with
    | none => s
    | some i => s.take i ++ new ++ pyReplaceGo old new fuel (s.drop (i + old.length))

/-- Python `s.replace(old, new)` for a nonempty `old`: replace every
non-overlapping occurrence, scanning left to right. -/
def pyReplace (old new s : Str) : Str := pyReplaceGo old new (s.length + 1) s

/-- Python `str.isspace` characters relevant to `str.strip()` (ASCII). -/
def pyIsSpace (c : Char) : Bool :=
  c == ' ' || c == '\t' || c == '\n' || c == '\r' ||
  c == Char.ofNat 11 || c == Char.ofNat 12

/-- Python `s.strip()`: drop leading and trailing whitespace. -/
def pyStrip (s : Str) : Str :=
  ((s.dropWhile pyIsSpace).reverse.dropWhile pyIsSpace).reverse

/-- Kinds of Python exception an external provider call may raise, as seen
by `ArticleTranslator.__call__`: the DeepL-specific `DeepLException`
versus any other `Exception`. -/
inductive PyExc
  | deepLException
  | otherException
deriving DecidableEq

/-- Python exceptions that the embedded code itself raises to its caller. -/
inductive PyErr
  | typeError
  | unboundLocalError
deriving DecidableEq

/-- `ArticleTranslator.__call__` (function.py:14-31).  The body is
`try: t = deepl(d)  except DeepLException: t = microsoft(d)
except Exception: t = d  finally: return t`.  The outcomes of the two
provider calls are oracle parameters.  When the DeepL call raises
`DeepLException` and the Microsoft call then raises as well, that second
exception escapes both handlers and the `finally` block executes
`return translate_description` with the local never assigned, so the
caller sees `UnboundLocalError`. -/
def translator_call (description : Str)
    (deeplResult microsoftResult : Except PyExc Str) : Except PyErr Str :=
  match deeplResult with
  | .ok t => .ok t
  | .error .deepLException =>
    match microsoftResult with
    | .ok t => .ok t
    | .error _ => .error .unboundLocalError
  | .error .otherException => .ok description

/-- Python `int()` applied to a real value: truncation toward zero. -/
def pyInt (q : ℚ) : ℤ := if 0 ≤ q then ⌊q⌋ else ⌈q⌉

/-- Sleep computed after a successful primary-model Gemini call
(function.py:123): `max(int(12 - elapsed), 0) + 1`. -/
def primarySleep (elapsed : ℚ) : ℤ := max (pyInt (12 - elapsed)) 0 + 1

/-- Sleep computed after the fallback lighter-model Gemini call
(function.py:135): `max(int(6 - elapsed), 0) + 1`. -/
def fallbackSleep (elapsed : ℚ) : ℤ := max (pyInt (6 - elapsed)) 0 + 1

/-- Python `text.rfind(marker)` (as used in
`ArticleSummarizer.extract_after_last`): the greatest index at which
`marker` occurs as a substring of `text`, `none` standing for `-1`. -/
def pyRfind (text marker : Str) : Option Nat :=
  ((List.range (text.length + 1)).filter
    (fun i => marker.isPrefixOf (text.drop i))).getLast?

/-- `ArticleSummarizer.extract_after_last` (function.py:142-157):
`idx = text.rfind(marker); return None if idx == -1 else text[idx:]`. -/
def extract_after_last (text marker : Str) : Option Str :=
  match pyRfind text marker with
  | none => none
  | some idx => some (text.drop idx)

/-- Predicate: `marker` occurs in `text` starting at index `i`
(the occurrence lies entirely inside `text`). -/
def occursAt (text marker : Str) (i : Nat) : Bool :=
  decide (i ≤ text.length) && marker.isPrefixOf (text.drop i)

/-- Lazy search for the closing doubled delimiter of
`re.sub(r"\*\*(.+?)\*\*", ...)` / `re.sub(r"__(.+?)__", ...)`: starting
just after an opening `dd`, extend the (nonempty, newline-free) group one
character at a time and close at the earliest following `dd`.  Returns
the captured group and the remainder after the closing delimiter. -/
def lazyClose (d : Char) : Str → Str → Option (Str × Str)
  | _, [] => none
  | acc, c :: rest =>
    if c = '\n' then none
    else
      match rest with
      | r1 :: r2 :: rest2 =>
        if r1 = d ∧ r2 = d then some (acc ++ [c], rest2)
        else lazyClose d (acc ++ [c]) rest
      | _ => none

/-- Fuel-driven worker for `subDouble`; each step strictly shrinks the
input, so fuel `s.length + 1` always suffices. -/
def subDoubleGo (d : Char) : Nat → Str → Str
  | 0, s => s
  | _, [] => []
  | fuel + 1, c1 :: rest =>
    match rest with
    | c2 :: rest1 =>
      if c1 = d ∧ c2 = d then
        match lazyClose d [] rest1 with
        | some (g, rest2) => '*' :: (g ++ '*' :: subDoubleGo d fuel rest2)
        | none => c1 :: subDoubleGo d fuel rest
      else c1 :: subDoubleGo d fuel rest
    | [] => [c1]

/-- Python `re.sub(r"\*\*(.+?)\*\*", r"*\1*", s)` when `d = '*'` and
`re.sub(r"__(.+?)__", r"*\1*", s)` when `d = '_'`: leftmost,
non-overlapping, lazy matches of a doubled delimiter around a nonempty
newline-free group, each rewritten to `*group*`. -/
def subDouble (d : Char) (s : Str) : Str := subDoubleGo d (s.length + 1) s

/-- Normalization of line endings in `format_summarize_for_blocks`
(function.py:206): `s.replace("\r\n", "\n").replace("\r", "\n")`. -/
def normalizeNewlines (s : Str) : Str :=
  pyReplace (str "\r") (str "\n") (pyReplace (str "\r\n") (str "\n") s)

/-- `ArticleSummarizer.format_summarize_for_blocks` (function.py:191-212):
`None` maps to the empty string; otherwise normalize line endings, strip,
then rewrite `**bold**` and `__bold__` to Slack's `*bold*`. -/
def format_summarize_for_blocks : Option Str → Str
  | none => []
  | some summary =>
    let s := pyStrip (normalizeNewlines summary)
    let s := subDouble '*' s
    subDouble '_' s

/-- Style dictionary attached to a rich-text run (absent keys are false). -/
structure Style where
  bold : Bool := false
  italic : Bool := false
  code : Bool := false
deriving DecidableEq

/-- Element of a Slack `rich_text_section`: a styled/plain text run or a
link element. -/
inductive RTElem
  | text (t : Str) (style : Option Style)
  | link (url : Str)
deriving DecidableEq

/-- Slack `rich_text_section`. -/
structure RTSection where
  elements : List RTElem
deriving DecidableEq

/-- Slack blocks produced by `BlockCreator` (formatter.py). -/
inductive Block
  | divider
  | header (text : Str)
  | richText (sections : List RTSection)
deriving DecidableEq

/-- `BlockCreator._set_header` (formatter.py:10-24).  For titles longer
than 150 characters it collects every index `i` of a space with
`i < 150` and splits at `spaces[-1]`; the `Option` result models the
`IndexError` that `spaces[-1]` raises when that list is empty. -/
def set_header (header : Str) : Option (List Block) :=
  if 150 < header.length then
    match ((List.range header.length).filter
      (fun i => (header.get? i == some ' ') && decide (i < 150))).getLast? with
    | none => none
    | some k => some [.header (header.take k), .header (header.drop k)]
  else some [.header header]

/-- `BlockCreator._set_url` (formatter.py:26-38). -/
def set_url (url : Str) : Block :=
  .richText [⟨[.link url]⟩]

/-- Tag fragments of `BlockCreator._set_tags` (formatter.py:42-46):
last double-newline paragraph, spaces removed, split on `#`, empty
fragments discarded. -/
def tagTextList (description : Str) : List Str :=
  (pySplit (str "#")
    (pyReplace (str " ") []
      ((pySplit (str "\n\n") description).getLastD []))).filter
    (fun s => decide (0 < s.length))

/-- The `#` run of `_set_tags`, styled italic+code. -/
def hashElem : RTElem := .text (str "#") (some { italic := true, code := true })

/-- A tag run of `_set_tags`, styled italic+code. -/
def tagElem (t : Str) : RTElem := .text t (some { italic := true, code := true })

/-- The single-space separator run of `_set_tags` (no style dict). -/
def sepElem : RTElem := .text (str " ") none

/-- Element list of `BlockCreator._set_tags` (formatter.py:48-60):
`[hash] + sum([[tag, sep, hash] for tag in tags], [])[:-1]` — note that
in the source the `[:-1]` slice applies to the `sum(...)` only, not to
the whole concatenation. -/
def tagElements (description : Str) : List RTElem :=
  hashElem ::
    ((tagTextList description).map (fun t => [tagElem t, sepElem, hashElem])).flatten.dropLast

/-- `BlockCreator._set_tags` (formatter.py:40-64). -/
def set_tags (description : Str) : Block :=
  .richText [⟨tagElements description⟩]

/-- Closed-form description of the element sequence that the `_set_tags`
construction produces after its leading hash run, for a nonempty tag
list: each tag followed by the space separator, with a hash run opening
every tag after the first, and the space run remaining after the last
tag. -/
def interleaveTags : List Str → List RTElem
  | [] => []
  | [t] => [tagElem t, sepElem]
  | t :: t2 :: ts => tagElem t :: sepElem :: hashElem :: interleaveTags (t2 :: ts)

/-- Item of `BlockCreator._set_description` (formatter.py:68-71):
for each non-final double-newline paragraph `s`, title is
`s.split("\n")[0]` and text is `"\n".join(s.split("\n")[1:])`. -/
def descriptionItems (description : Str) : List (Str × Str) :=
  ((pySplit (str "\n\n") description).dropLast).map
    (fun s =>
      ((pySplit (str "\n") s).headD [],
       List.intercalate (str "\n") ((pySplit (str "\n") s).drop 1)))

/-- `BlockCreator._set_description` (formatter.py:66-89): one rich-text
block with a section per item, the item title rendered bold between
newlines and the item text rendered unstyled. -/
def set_description (description : Str) : Block :=
  .richText ((descriptionItems description).map
    (fun it =>
      ⟨[.text ('\n' :: it.1 ++ ['\n']) (some { bold := true }),
        .text it.2 none]⟩))

/-- An enriched article as returned by `Publisher.format_article`:
the dictionary with title, title_link, author, description fields. -/
structure Article where
  title : Str
  title_link : Str
  author : Str
  description : Str
deriving DecidableEq

/-- `BlockCreator.__call__` (formatter.py:1-8):
`[divider] + header + [url, tags, description]`; the `Option` result
propagates the `IndexError` of `_set_header` on a long spaceless title. -/
def blockCreatorCall (article : Article) : Option (List Block) :=
  (set_header article.title).map
    (fun hs =>
      Block.divider :: hs ++
        [set_url article.title_link, set_tags article.description,
         set_description article.description])

/-- A compiled keyword pattern, modelled by what `Publisher` observes of
it: `p.search(title)` is either a match object (here `Unit`) or `None`. -/
abbrev Pattern := Str → Option Unit

/-- The call `ArticleSummarizer()(link, patterns)` written in
`Publisher.format_article` (publisher.py:60).  `ArticleSummarizer.__call__`
(function.py:73) declares the single positional parameter `link`, so this
two-argument call raises `TypeError` before any summarization runs. -/
def summarizerCallTwoArgs (_link : Str) (_patterns : List Pattern) :
    Except PyErr Str :=
  .error .typeError

/-- `Publisher.format_article` (publisher.py:45-72): extract the keyword
fields, overwrite the description with the summarizer output, translate
it when it is empty, and build the article dictionary.  The extracted
fields and the translation-provider outcomes are oracle parameters. -/
def format_article (extracted : Str × Str × Str × Str)
    (patterns : List Pattern)
    (deeplResult microsoftResult : Except PyExc Str) : Except PyErr Article :=
  let (title, link, authors, _description) := extracted
  match summarizerCallTwoArgs link patterns with
  | .error e => .error e
  | .ok summaryDesc =>
    let descE : Except PyErr Str :=
      match summaryDesc.length with
      | 0 => translator_call summaryDesc deeplResult microsoftResult
      | _ => .ok summaryDesc
    match descE with
    | .error e => .error e
    | .ok description => .ok ⟨title, link, authors, description⟩

/-- A raw feed entry as `Publisher.get_articles` consumes it: its computed
publish date (an integer day stamp, UTC) and its raw title. -/
structure Entry where
  pubDate : Int
  rawTitle : Str
deriving DecidableEq

/-- `Publisher.get_articles` (publisher.py:87-112): for each entry, when
the publish date is older than today yield `None`; otherwise parse the
title, test every pattern, and on any match yield the formatted article.
`today`, the title parser, and the formatting step (abstracting
`format_article`) are parameters. -/
def getArticlesGen (today : Int) (parse : Str → Str)
    (patterns : List Pattern) (fmt : Entry → Article) :
    List Entry → List (Option Article)
  | [] => []
  | e :: es =>
    if e.pubDate < today then
      none :: getArticlesGen today parse patterns fmt es
    else
      if ((patterns.map (fun p => p (parse e.rawTitle))).filter
            Option.isSome) ≠ [] then
        some (fmt e) :: getArticlesGen today parse patterns fmt es
      else getArticlesGen today parse patterns fmt es

/-- `run.get_articles` (run.py:39-57): per publisher, keep exactly the
generator outputs `i` with `i is not None`, concatenated in order. -/
def run_get_articles (outputsPerPublisher : List (List (Option Article))) :
    List Article :=
  outputsPerPublisher.flatMap (fun outs => outs.filterMap id)

/-- Message blocks built inline by `run.main` (run.py:69-86). -/
inductive MsgBlock
  | divider
  | headerBlock (text : Str)
  | mrkdwnSection (text : Str)
deriving DecidableEq

/-- The block list `run.main` builds for one article: divider, header
with the title, mrkdwn link section, mrkdwn description section. -/
def mainBlocks (a : Article) : List MsgBlock :=
  [.divider,
   .headerBlock a.title,
   .mrkdwnSection ('<' :: a.title_link ++ '|' :: a.title_link ++ ['>']),
   .mrkdwnSection a.description]

/-- One `chat_postMessage` call issued by `run.main`. -/
structure SlackPost where
  channel : Str
  blocks : List MsgBlock
deriving DecidableEq

/-- The posting loop of `run.main` (run.py:60-96): for every article in
`run.get_articles`'s output and every `(client, channel)` pair of
`zip(slacks, POST_CHANNEL)`, issue one post — with no condition on the
description. -/
def mainPosts (articles : List Article) (slacks : List Unit)
    (channels : List Str) : List SlackPost :=
  articles.flatMap (fun a => (slacks.zip channels).map
    (fun sc => ⟨sc.2, mainBlocks a⟩))

/-- Concrete 151-character title with no space anywhere. -/
def longSpacelessTitle : Str := List.replicate 151 'a'

/-- Concrete 161-character title whose only space sits at index 100. -/
def longSpacedTitle : Str := List.replicate 100 'a' ++ ' ' :: List.replicate 60 'b'

/-- The spec's hashtag-parsing example paragraph. -/
def exampleTagParagraph : Str := str "  #foo #bar-baz #qux  "

/-- The spec's marker-extraction example text. -/
def exampleMarkerText : Str := str "noise *M* keep *M* tail"


/-! Helper lemmas about the last element of a filtered range, the shape
shared by `set_header`'s `spaces[-1]` and `pyRfind`. -/

theorem filter_range_getLast_spec (p : Nat → Bool) :
    ∀ n k : Nat, ((List.range n).filter p).getLast? = some k →
      p k = true ∧ k < n ∧ ∀ j, k < j → j < n → p j = false := by
  intro n
  induction n with
  | zero => intro k h; simp [List.range_zero] at h
  | succ n ih =>
    intro k h
    rw [List.range_succ, List.filter_append] at h
    by_cases hp : p n = true
    · rw [List.filter_cons, if_pos hp] at h
      simp only [List.filter_nil] at h
      rw [List.getLast?_concat] at h
      obtain rfl : n = k := by simpa using h
      exact ⟨hp, Nat.lt_succ_self n, fun j h1 h2 => absurd h2 (by omega)⟩
    · rw [List.filter_cons, if_neg hp] at h
      simp only [List.filter_nil, List.append_nil] at h
      obtain ⟨h1, h2, h3⟩ := ih k h
      refine ⟨h1, by omega, fun j hj hjn => ?_⟩
      rcases Nat.lt_succ_iff_lt_or_eq.mp hjn with hlt | rfl
      · exact h3 j hj hlt
      · exact Bool.eq_false_iff.mpr (fun hc => hp hc)

theorem filter_range_getLast_total (p : Nat → Bool) :
    ∀ n : Nat, (∃ i, i < n ∧ p i = true) →
      ∃ k, ((List.range n).filter p).getLast? = some k := by
  intro n
  induction n with
  | zero => rintro ⟨i, hi, -⟩; omega
  | succ n ih =>
    rintro ⟨i, hi, hp⟩
    rw [List.range_succ, List.filter_append]
    by_cases hn : p n = true
    · rw [List.filter_cons, if_pos hn]
      simp only [List.filter_nil]
      exact ⟨n, List.getLast?_concat _⟩
    · have hi2 : i < n := by
        rcases Nat.lt_succ_iff_lt_or_eq.mp hi with h | rfl
        · exact h
        · exact absurd hp hn
      rw [List.filter_cons, if_neg hn]
      simp only [List.filter_nil, List.append_nil]
      exact ih ⟨i, hi2, hp⟩

/-- Claim C5: a title of length at most 150 yields exactly one header
block carrying the title itself; a longer title containing a space in its
first 150 characters yields exactly two header blocks, split at the last
such space, whose texts concatenate back to the original title. -/
theorem header_split_spec (header : Str) :
    (header.length ≤ 150 → set_header header = some [.header header]) ∧
    (150 < header.length →
      (∃ i, i < 150 ∧ header.get? i = some ' ') →
      ∃ k, k < 150 ∧ header.get? k = some ' ' ∧
        (∀ j, k < j → j < 150 → header.get? j ≠ some ' ') ∧
        set_header header =
          some [.header (header.take k), .header (header.drop k)] ∧
        header.take k ++ header.drop k = header) := by
  constructor
  · intro h
    rw [set_header, if_neg (by omega)]
  · intro hlen ⟨i, hi, hsp⟩
    set p : Nat → Bool :=
      fun i => (header.get? i == some ' ') && decide (i < 150) with hpdef
    have hex : ∃ k, ((List.range header.length).filter p).getLast? = some k :=
      filter_range_getLast_total p header.length
        ⟨i, by omega, by
          simp only [hpdef, Bool.and_eq_true, beq_iff_eq, decide_eq_true_eq]
          exact ⟨hsp, hi⟩⟩
    obtain ⟨k, hk⟩ := hex
    obtain ⟨hpk, hkn, hmax⟩ := filter_range_getLast_spec p header.length k hk
    simp only [hpdef, Bool.and_eq_true, beq_iff_eq, decide_eq_true_eq] at hpk
    refine ⟨k, hpk.2, hpk.1, ?_, ?_, List.take_append_drop k header⟩
    · intro j hj hj150 hjsp
      have htrue : p j = true := by
        simp only [hpdef, Bool.and_eq_true, beq_iff_eq, decide_eq_true_eq]
        exact ⟨hjsp, hj150⟩
      rw [hmax j hj (by omega)] at htrue
      exact Bool.noConfusion htrue
    · rw [set_header, if_pos hlen]
      rw [hpdef] at hk
      rw [hk]

/-- Claim C5 witness: the 161-character title with its single space at
index 100 is split there into two reconstructing header blocks. -/
theorem header_split_witness :
    ∃ k, k < 150 ∧ longSpacedTitle.get? k = some ' ' ∧
      (∀ j, k < j → j < 150 → longSpacedTitle.get? j ≠ some ' ') ∧
      set_header longSpacedTitle =
        some [.header (longSpacedTitle.take k),
              .header (longSpacedTitle.drop k)] ∧
      longSpacedTitle.take k ++ longSpacedTitle.drop k = longSpacedTitle :=
  (header_split_spec longSpacedTitle).2 (by decide) ⟨100, by decide, by decide⟩

/-- Claim C10: a title longer than 150 characters with no space below
index 150 makes `spaces[-1]` index an empty list, so `_set_header` — and
with it `BlockCreator.__call__` — fails instead of returning blocks. -/
theorem header_no_space_crashes (article : Article)
    (hlen : 150 < article.title.length)
    (hns : ∀ i, i < 150 → article.title.get? i ≠ some ' ') :
    set_header article.title = none ∧ blockCreatorCall article = none := by
  have hfil : (List.range article.title.length).filter
      (fun i => (article.title.get? i == some ' ') && decide (i < 150)) = [] := by
    rw [List.filter_eq_nil_iff]
    intro a ha
    simp only [Bool.and_eq_true, beq_iff_eq, decide_eq_true_eq, not_and]
    intro hsp h150
    exact hns a h150 hsp
  have h1 : set_header article.title = none := by
    rw [set_header, if_pos hlen, hfil]
    rfl
  exact ⟨h1, by rw [blockCreatorCall, h1]; rfl⟩

/-- Claim C10 witness: a concrete 151-character spaceless title crashes
both `_set_header` and `BlockCreator.__call__`. -/
theorem header_no_space_witness :
    set_header longSpacelessTitle = none ∧
    blockCreatorCall ⟨longSpacelessTitle, str "u", str "v", str "w"⟩ = none :=
  header_no_space_crashes ⟨longSpacelessTitle, str "u", str "v", str "w"⟩
    (by decide) (by decide)

/-- Claim C6: `extract_after_last` returns `None` when the marker never
occurs, and otherwise the suffix of the text starting at the last
occurrence of the marker, marker included. -/
theorem extract_after_last_spec (text marker : Str) :
    ((∀ i, occursAt text marker i = false) →
      extract_after_last text marker = none) ∧
    (∀ i, occursAt text marker i = true →
      ∃ k, occursAt text marker k = true ∧
        (∀ j, occursAt text marker j = true → j ≤ k) ∧
        extract_after_last text marker = some (text.drop k) ∧
        marker.isPrefixOf (text.drop k) = true) := by
  constructor
  · intro h
    have hfil : (List.range (text.length + 1)).filter
        (fun i => marker.isPrefixOf (text.drop i)) = [] := by
      rw [List.filter_eq_nil_iff]
      intro a ha
      have ha2 : a ≤ text.length := by
        have := List.mem_range.mp ha
        omega
      have := h a
      rw [occursAt, Bool.and_eq_false_iff] at this
      rcases this with h1 | h1
      · exact absurd (decide_eq_true ha2) (by simp [h1])
      · simp [h1]
    rw [extract_after_last, pyRfind, hfil]
    rfl
  · intro i hi
    rw [occursAt, Bool.and_eq_true] at hi
    obtain ⟨hi1, hi2⟩ := hi
    have hi1 : i ≤ text.length := of_decide_eq_true hi1
    obtain ⟨k, hk⟩ := filter_range_getLast_total
      (fun i => marker.isPrefixOf (text.drop i)) (text.length + 1)
      ⟨i, by omega, hi2⟩
    obtain ⟨hpk, hkn, hmax⟩ := filter_range_getLast_spec
      (fun i => marker.isPrefixOf (text.drop i)) (text.length + 1) k hk
    refine ⟨k, ?_, ?_, ?_, hpk⟩
    · rw [occursAt, Bool.and_eq_true]
      exact ⟨decide_eq_true (by omega), hpk⟩
    · intro j hj
      rw [occursAt, Bool.and_eq_true] at hj
      obtain ⟨hj1, hj2⟩ := hj
      have hj1 : j ≤ text.length := of_decide_eq_true hj1
      by_contra hlt
      have := hmax j (by omega) (by omega)
      rw [hj2] at this
      exact Bool.noConfusion this
    · rw [extract_after_last, pyRfind, hk]

/-- Claim C6 witness: on the spec's example, the marker `*M*` occurs
twice and the extracted suffix is exactly `*M* tail`. -/
theorem extract_after_last_witness :
    (∃ k, occursAt exampleMarkerText (str "*M*") k = true ∧
      (∀ j, occursAt exampleMarkerText (str "*M*") j = true → j ≤ k) ∧
      extract_after_last exampleMarkerText (str "*M*") =
        some (exampleMarkerText.drop k) ∧
      (str "*M*").isPrefixOf (exampleMarkerText.drop k) = true) ∧
    extract_after_last exampleMarkerText (str "*M*") = some (str "*M* tail") :=
  ⟨(extract_after_last_spec exampleMarkerText (str "*M*")).2 6 (by decide),
   by decide⟩

theorem interleaveTags_ne_nil (ts : List Str) (h : ts ≠ []) :
    interleaveTags ts ≠ [] := by
  cases ts with
  | nil => exact absurd rfl h
  | cons t ts => cases ts <;> simp [interleaveTags]

theorem interleaveTags_length (ts : List Str) (h : ts ≠ []) :
    (interleaveTags ts).length = 3 * ts.length - 1 := by
  induction ts with
  | nil => exact absurd rfl h
  | cons t ts ih =>
    cases ts with
    | nil => rfl
    | cons t2 ts2 =>
      rw [interleaveTags]
      simp only [List.length_cons]
      rw [ih (by simp)]
      simp only [List.length_cons]
      omega

theorem interleaveTags_getLast (ts : List Str) (h : ts ≠ []) :
    (interleaveTags ts).getLast? = some sepElem := by
  induction ts with
  | nil => exact absurd rfl h
  | cons t ts ih =>
    cases ts with
    | nil => rfl
    | cons t2 ts2 =>
      rw [interleaveTags, List.getLast?_cons_cons, List.getLast?_cons_cons]
      have hne := interleaveTags_ne_nil (t2 :: ts2) (by simp)
      obtain ⟨x, l, hxl⟩ : ∃ x l, interleaveTags (t2 :: ts2) = x :: l := by
        cases hmm : interleaveTags (t2 :: ts2) with
        | nil => exact absurd hmm hne
        | cons x l => exact ⟨x, l, rfl⟩
      rw [hxl, List.getLast?_cons_cons]
      rw [hxl] at ih
      exact ih (by simp)

theorem flatten_triples_dropLast (ts : List Str) (h : ts ≠ []) :
    ((ts.map (fun t => [tagElem t, sepElem, hashElem])).flatten).dropLast =
      interleaveTags ts := by
  induction ts with
  | nil => exact absurd rfl h
  | cons t ts ih =>
    cases ts with
    | nil => rfl
    | cons t2 ts2 =>
      rw [List.map_cons, List.flatten_cons]
      rw [List.dropLast_append_of_ne_nil _ (by simp [List.flatten_cons])]
      rw [ih (by simp)]
      rfl

/-- Claim C4 counterexample: on the spec's own example paragraph the
rendered element list ends in the space separator (so a trailing
separator does exist), it is not the six-element
`#, tag, sep, tag, sep, tag` sequence the claim describes, and a
paragraph with zero tags yields the single `#` element rather than an
empty element list. -/
theorem tag_elements_cex :
    (tagElements exampleTagParagraph).getLast? = some sepElem ∧
    tagElements exampleTagParagraph ≠
      [hashElem, tagElem (str "foo"), sepElem, tagElem (str "bar-baz"),
       sepElem, tagElem (str "qux")] ∧
    tagElements (str "") ≠ [] := by
  refine ⟨by decide, by decide, by decide⟩

/-- Claim C4 amended: `_set_tags` renders, after the leading `#` run, each
tag followed by a space separator and a `#` run opening the next tag,
with the final `#` (not the final separator) dropped — so a nonempty tag
list of n tags yields exactly 3n elements ending in the space separator,
and zero tags yield the single leading `#` element instead of an empty
element list. -/
theorem tag_elements_spec (description : Str) :
    (tagTextList description = [] → tagElements description = [hashElem]) ∧
    (tagTextList description ≠ [] →
      tagElements description =
        hashElem :: interleaveTags (tagTextList description) ∧
      (tagElements description).length = 3 * (tagTextList description).length ∧
      (tagElements description).getLast? = some sepElem) := by
  constructor
  · intro h
    rw [tagElements, h]
    rfl
  · intro h
    have he : tagElements description =
        hashElem :: interleaveTags (tagTextList description) := by
      rw [tagElements, flatten_triples_dropLast _ h]
    refine ⟨he, ?_, ?_⟩
    · rw [he, List.length_cons, interleaveTags_length _ h]
      have hpos : 0 < (tagTextList description).length := List.length_pos.mpr h
      omega
    · rw [he]
      have hne := interleaveTags_ne_nil _ h
      obtain ⟨x, l, hxl⟩ : ∃ x l, interleaveTags (tagTextList description) = x :: l := by
        cases hmm : interleaveTags (tagTextList description) with
        | nil => exact absurd hmm hne
        | cons x l => exact ⟨x, l, rfl⟩
      rw [hxl, List.getLast?_cons_cons]
      rw [← hxl, interleaveTags_getLast _ h]

/-- Claim C4 witness: the spec's example paragraph parses to three tags
and renders to nine elements ending in the space separator. -/
theorem tag_elements_witness :
    tagElements exampleTagParagraph =
      hashElem :: interleaveTags (tagTextList exampleTagParagraph) ∧
    (tagElements exampleTagParagraph).length =
      3 * (tagTextList exampleTagParagraph).length ∧
    (tagElements exampleTagParagraph).getLast? = some sepElem :=
  (tag_elements_spec exampleTagParagraph).2 (by decide)

/-- Claim C1: `Publisher.format_article` cannot complete for any entry —
the call `ArticleSummarizer()(link, patterns)` it performs passes two
positional arguments to a `__call__` that accepts only `link`, so every
invocation raises `TypeError` to the caller instead of returning the
title/title_link/author/description dictionary. -/
theorem format_article_raises (extracted : Str × Str × Str × Str)
    (patterns : List Pattern) (deeplResult microsoftResult : Except PyExc Str) :
    format_article extracted patterns deeplResult microsoftResult =
      Except.error PyErr.typeError := by
  obtain ⟨t, l, a, d⟩ := extracted
  rfl

/-- Claim C2 counterexample: when DeepL raises `DeepLException` and the
Microsoft fallback then fails too, `ArticleTranslator.__call__` does not
return the original text — the `finally` block's
`return translate_description` reads a never-assigned local and raises
`UnboundLocalError`. -/
theorem translator_call_cex :
    translator_call (str "x") (Except.error PyExc.deepLException)
        (Except.error PyExc.otherException) =
      Except.error PyErr.unboundLocalError ∧
    translator_call (str "x") (Except.error PyExc.deepLException)
        (Except.error PyExc.otherException) ≠ Except.ok (str "x") :=
  ⟨rfl, fun h => Except.noConfusion h⟩

/-- Claim C2 amended: on `DeepLException` with a successful Microsoft
fallback the Microsoft result is returned, on any other DeepL exception
the original text is returned, but when the Microsoft fallback fails
after a `DeepLException` the caller receives `UnboundLocalError` rather
than the original text. -/
theorem translator_call_spec (description t : Str) (e : PyExc)
    (msResult : Except PyExc Str) :
    translator_call description (Except.error PyExc.deepLException)
        (Except.ok t) = Except.ok t ∧
    translator_call description (Except.error PyExc.otherException)
        msResult = Except.ok description ∧
    translator_call description (Except.error PyExc.deepLException)
        (Except.error e) = Except.error PyErr.unboundLocalError :=
  ⟨rfl, rfl, rfl⟩

theorem sleep_helper (fl : ℤ) (e : ℚ) (hle : e ≤ (fl : ℚ)) :
    max (pyInt ((fl : ℚ) - e)) 0 + 1 = fl + 1 - ⌈e⌉ := by
  have h1 : (0 : ℚ) ≤ (fl : ℚ) - e := by linarith
  have h2 : pyInt ((fl : ℚ) - e) = fl - ⌈e⌉ := by
    rw [pyInt, if_pos h1]
    have hrw : (fl : ℚ) - e = -e + (fl : ℤ) := by ring
    rw [hrw, Int.floor_add_int, Int.floor_neg]
    ring
  have h3 : ⌈e⌉ ≤ fl := Int.ceil_le.mpr hle
  rw [h2, max_eq_left (by omega)]
  omega

theorem primarySleep_at_example : primarySleep (16 / 5) = 9 := by
  have hf : ⌊(12 - 16 / 5 : ℚ)⌋ = 8 := by
    rw [Int.floor_eq_iff]
    constructor <;> norm_num
  have hpos : (0 : ℚ) ≤ 12 - 16 / 5 := by norm_num
  rw [primarySleep, pyInt, if_pos hpos, hf]
  decide

theorem fallbackSleep_at_example : fallbackSleep (16 / 5) = 3 := by
  have hf : ⌊(6 - 16 / 5 : ℚ)⌋ = 2 := by
    rw [Int.floor_eq_iff]
    constructor <;> norm_num
  have hpos : (0 : ℚ) ≤ 6 - 16 / 5 := by norm_num
  rw [fallbackSleep, pyInt, if_pos hpos, hf]
  decide

/-- Claim C3 counterexample: for elapsed = 3.2 s the computed
primary-model sleep is 9 seconds, not the 10 seconds the claim derives by
truncating elapsed before the subtraction. -/
theorem sleep_cex : primarySleep (16 / 5) = 9 ∧ primarySleep (16 / 5) ≠ 10 := by
  refine ⟨primarySleep_at_example, ?_⟩
  rw [primarySleep_at_example]
  decide

/-- Claim C3 amended: the code truncates the difference, not the elapsed
time — the sleep is `max(int(12 − elapsed), 0) + 1`, which for
0 ≤ elapsed ≤ 12 equals `13 − ⌈elapsed⌉`; in particular elapsed = 3.2 s
gives 9 seconds. The fallback model uses floor 6 the same way, giving
`7 − ⌈elapsed⌉` on 0 ≤ elapsed ≤ 6, so 3 seconds at 3.2 s. -/
theorem sleep_truncates_difference :
    (∀ e : ℚ, 0 ≤ e → e ≤ 12 → primarySleep e = 13 - ⌈e⌉) ∧
    (∀ e : ℚ, 0 ≤ e → e ≤ 6 → fallbackSleep e = 7 - ⌈e⌉) ∧
    primarySleep (16 / 5) = 9 ∧ fallbackSleep (16 / 5) = 3 := by
  refine ⟨fun e _ h12 => ?_, fun e _ h6 => ?_,
    primarySleep_at_example, fallbackSleep_at_example⟩
  · have h := sleep_helper 12 e (by exact_mod_cast h12)
    have hcast : ((12 : ℤ) : ℚ) = (12 : ℚ) := by norm_num
    rw [hcast] at h
    rw [primarySleep, h]
    ring
  · have h := sleep_helper 6 e (by exact_mod_cast h6)
    have hcast : ((6 : ℤ) : ℚ) = (6 : ℚ) := by norm_num
    rw [hcast] at h
    rw [fallbackSleep, h]
    ring

/-- Claim C3 witness: the general amended formula applied at
elapsed = 16/5 = 3.2 s. -/
theorem sleep_witness : primarySleep (16 / 5) = 13 - ⌈(16 / 5 : ℚ)⌉ :=
  sleep_truncates_difference.1 (16 / 5) (by norm_num) (by norm_num)

/-- Claim C7 counterexample: `format_summarize_for_blocks` is not
idempotent — on `***a***` one application yields `**a**` and a second
application rewrites that again to `*a*`. -/
theorem format_blocks_not_idempotent :
    format_summarize_for_blocks
        (some (format_summarize_for_blocks (some (str "***a***")))) ≠
      format_summarize_for_blocks (some (str "***a***")) := by
  decide

/-- Claim C7 amended: `format_summarize_for_blocks` is safe on absent or
empty input (both map to the empty string without raising), but it is not
idempotent: `***a***` maps to `**a**`, which maps again to `*a*`. -/
theorem format_blocks_safe_on_absent :
    format_summarize_for_blocks none = str "" ∧
    format_summarize_for_blocks (some (str "")) = str "" ∧
    format_summarize_for_blocks (some (str "***a***")) = str "**a**" ∧
    format_summarize_for_blocks (some (str "**a**")) = str "*a*" := by
  refine ⟨rfl, by decide, by decide, by decide⟩

/-- Claim C8: every article the generator yields comes from an entry whose
publish date is not older than today and whose parsed title matches some
pattern; and every entry older than today contributes exactly one
explicit `None` sentinel to the yielded sequence. -/
theorem get_articles_filter_spec (today : Int) (parse : Str → Str)
    (patterns : List Pattern) (fmt : Entry → Article) (entries : List Entry) :
    (∀ a : Article,
      some a ∈ getArticlesGen today parse patterns fmt entries →
      ∃ e ∈ entries, ¬ e.pubDate < today ∧
        ((patterns.map (fun p => p (parse e.rawTitle))).filter
          Option.isSome) ≠ [] ∧ a = fmt e) ∧
    ((getArticlesGen today parse patterns fmt entries).countP Option.isNone =
      (entries.filter (fun e => decide (e.pubDate < today))).length) := by
  induction entries with
  | nil => exact ⟨fun a h => absurd h (List.not_mem_nil _), rfl⟩
  | cons e es ih =>
    obtain ⟨ih1, ih2⟩ := ih
    by_cases hd : e.pubDate < today
    · constructor
      · intro a ha
        rw [getArticlesGen, if_pos hd] at ha
        rcases List.mem_cons.mp ha with h | h
        · exact absurd h (by simp)
        · obtain ⟨e2, he2, h3⟩ := ih1 a h
          exact ⟨e2, List.mem_cons_of_mem _ he2, h3⟩
      · rw [getArticlesGen, if_pos hd, List.countP_cons, List.filter_cons,
          if_pos (decide_eq_true hd)]
        simp [ih2, hd]
    · by_cases hm : ((patterns.map (fun p => p (parse e.rawTitle))).filter
          Option.isSome) ≠ []
      · constructor
        · intro a ha
          rw [getArticlesGen, if_neg hd, if_pos hm] at ha
          rcases List.mem_cons.mp ha with h | h
          · refine ⟨e, List.mem_cons_self e es, hd, hm, ?_⟩
            exact Option.some.inj h
          · obtain ⟨e2, he2, h3⟩ := ih1 a h
            exact ⟨e2, List.mem_cons_of_mem _ he2, h3⟩
        · rw [getArticlesGen, if_neg hd, if_pos hm, List.countP_cons,
            List.filter_cons, if_neg (by simp [hd])]
          simp [ih2, hd]
      · constructor
        · intro a ha
          rw [getArticlesGen, if_neg hd, if_neg hm] at ha
          obtain ⟨e2, he2, h3⟩ := ih1 a ha
          exact ⟨e2, List.mem_cons_of_mem _ he2, h3⟩
        · rw [getArticlesGen, if_neg hd, if_neg hm, List.filter_cons,
            if_neg (by simpa using hd)]
          exact ih2

/-- Claim C8 witness: one fresh entry matched by a constant pattern is
yielded as a formatted article descending from that entry. -/
theorem get_articles_filter_witness :
    ∃ e ∈ [Entry.mk 1 (str "t")], ¬ e.pubDate < 0 ∧
      (([fun _ => some ()].map
        (fun p => p (id e.rawTitle))).filter Option.isSome) ≠ [] ∧
      Article.mk (str "t") (str "l") (str "a") (str "d") =
        (fun _ => Article.mk (str "t") (str "l") (str "a") (str "d")) e :=
  (get_articles_filter_spec 0 id [fun _ => some ()]
    (fun _ => Article.mk (str "t") (str "l") (str "a") (str "d"))
    [Entry.mk 1 (str "t")]).1
    (Article.mk (str "t") (str "l") (str "a") (str "d"))
    (by decide)

/-- Claim C9 counterexample: `run.main` posts an article whose enriched
description is the empty string — one article, one channel, empty
description still yields exactly one post. -/
theorem main_posts_empty_description_cex :
    mainPosts [Article.mk (str "t") (str "l") (str "a") (str "")]
        [()] [str "ch"] =
      [SlackPost.mk (str "ch")
        (mainBlocks (Article.mk (str "t") (str "l") (str "a") (str "")))] ∧
    mainPosts [Article.mk (str "t") (str "l") (str "a") (str "")]
        [()] [str "ch"] ≠ [] := by
  refine ⟨rfl, by decide⟩

/-- Claim C9 amended: `run.main` never skips on an empty description —
it issues one post per article per `(client, channel)` pair regardless of
the description; the only filtering in `run.py` is `run.get_articles`
dropping the `None` sentinels. -/
theorem main_posts_unconditional (articles : List Article)
    (slacks : List Unit) (channels : List Str)
    (outs : List (List (Option Article))) (a : Article) :
    (mainPosts articles slacks channels).length =
      articles.length * min slacks.length channels.length ∧
    (a ∈ run_get_articles outs ↔ ∃ os ∈ outs, some a ∈ os) := by
  constructor
  · induction articles with
    | nil => simp [mainPosts]
    | cons x xs ih =>
      rw [mainPosts] at ih ⊢
      rw [List.flatMap_cons, List.length_append, List.length_map,
        List.length_zip, ih]
      rw [List.length_cons, Nat.succ_mul]
      omega
  · simp only [run_get_articles, List.mem_flatMap, List.mem_filterMap, id_eq,
      exists_eq_right]
